import Mathlib

/-!
Verification of the coordinate-formatting core of the GCS-Formating-Tool
repository (`GeoRound.py`), shallowly embedded in Lean.

Modelling choices:
* Python strings are modelled as `List Char` (with `String` wrappers built
  from the same data, since `String` is a structure holding a `List Char`).
* Python floats are idealised as exact scaled decimals `Dec` (an integer
  numerator at a power-of-ten scale, the value being `num / 10 ^ scale`):
  `float(s)` becomes a partial decimal parser `parseDec` (the plain-numeral
  subset of Python's float syntax: optional sign, digits, at most one dot;
  exponents, `inf`/`nan`, underscores and surrounding whitespace are
  outside the subset and are not needed by any claim), `round(x, 6)`
  becomes round-half-to-even at the sixth decimal (`roundAt6`, computed
  with integer arithmetic), and `f"{x:.6f}"` becomes an exact fixed-point
  renderer.  Sign-of-negative-zero is not representable in this model.
* Raised-and-caught exceptions become `Option`: `none` where the Python
  code would raise, with the caller's `except` clause made explicit.
-/

/-- Python's `s.split('.')` on a character list: splits at every `'.'`.
`splitDot [] = [[]]`, matching `"".split('.') == ['']`. -/
def splitDot : List Char → List (List Char)
  | [] => [[]]
  | c :: cs =>
    if c = '.' then [] :: splitDot cs
    else
      match splitDot cs with
      | [] => [[c]]
      | p :: ps => (c :: p) :: ps

/-- Decimal digit characters `'0'..'9'`. -/
def isDigitChar (c : Char) : Bool := '0' ≤ c && c ≤ '9'

/-- Value of a digit character. -/
def digitVal (c : Char) : Nat := c.toNat - 48

/-- Numeric value of a most-significant-first digit string. -/
def digitsVal (l : List Char) : Nat := l.foldl (fun a c => a * 10 + digitVal c) 0

/-- Leading `'-'`/`'+'` sign, split off the rest of the string
(the sign handling inside Python's `float`). -/
def stripSign (l : List Char) : Bool × List Char :=
  match l with
  | [] => (false, [])
  | c :: r =>
    if c = '-' then (true, r)
    else if c = '+' then (false, r)
    else (false, c :: r)

/-- Exact scaled decimal: the value `num / 10 ^ scale`.  This idealises a
Python float (which is the binary-rounded image of such a value). -/
structure Dec where
  num : ℤ
  scale : ℕ
  deriving DecidableEq

/-- Model of Python's `float(s)` on the plain-numeral subset:
optional sign, digits, at most one `'.'`, at least one digit in total.
`none` models a raised `ValueError`. -/
def parseDec (s : List Char) : Option Dec :=
  match splitDot (stripSign s).2 with
  | [i] =>
    if !i.isEmpty && i.all isDigitChar then
      some ⟨cond (stripSign s).1 (-(digitsVal i : ℤ)) (digitsVal i), 0⟩
    else none
  | [i, d] =>
    if !(i ++ d).isEmpty && (i ++ d).all isDigitChar then
      some ⟨cond (stripSign s).1 (-1 : ℤ) 1 *
        ((digitsVal i : ℤ) * 10 ^ d.length + (digitsVal d : ℤ)), d.length⟩
    else none
  | _ => none

/-- Floor division of `a` by a positive `b`, rounding a half-way quotient
to the nearest even integer (Python's `round` tie rule). -/
def divRoundHalfEven (a b : ℤ) : ℤ :=
  if 2 * (a - b * a.fdiv b) < b then a.fdiv b
  else if b < 2 * (a - b * a.fdiv b) then a.fdiv b + 1
  else if a.fdiv b % 2 = 0 then a.fdiv b else a.fdiv b + 1

/-- Model of Python's `round(x, 6)` on the idealised exact value, returned
as the integer `round(x * 10 ^ 6)` with the half-to-even tie rule. -/
def roundAt6 (x : Dec) : ℤ :=
  if x.scale ≤ 6 then x.num * 10 ^ (6 - x.scale)
  else divRoundHalfEven x.num (10 ^ (x.scale - 6))

/-- Digit character of a value below ten. -/
def digitChar (n : Nat) : Char :=
  if n = 0 then '0'
  else if n = 1 then '1'
  else if n = 2 then '2'
  else if n = 3 then '3'
  else if n = 4 then '4'
  else if n = 5 then '5'
  else if n = 6 then '6'
  else if n = 7 then '7'
  else if n = 8 then '8'
  else '9'

/-- Decimal digits, most significant first, with explicit fuel (the fuel
`n + 1` of `natDigits` always suffices, so the recursion is structural and
kernel-computable). -/
def natDigitsF : Nat → Nat → List Char
  | 0, _ => []
  | fuel + 1, n =>
    if n < 10 then [digitChar n]
    else natDigitsF fuel (n / 10) ++ [digitChar (n % 10)]

/-- Decimal digits of a natural number, most significant first. -/
def natDigits (n : Nat) : List Char := natDigitsF (n + 1) n

/-- Left-pad a digit string with zeros to width `k`. -/
def padZeros (k : Nat) (l : List Char) : List Char :=
  List.replicate (k - l.length) '0' ++ l

/-- Model of Python's `f"{x:.6f}"` on the idealised exact value: round
half-to-even at the sixth decimal, then render sign, integer digits, a
dot and exactly six fractional digits. -/
def formatFixed6 (x : Dec) : List Char :=
  (if roundAt6 x < 0 then ['-'] else []) ++
    natDigits ((roundAt6 x).natAbs / 1000000) ++
    '.' :: padZeros 6 (natDigits ((roundAt6 x).natAbs % 1000000))

/-- `format_coord` from `GeoRound.py` (lines 40-60), on character lists.
The `try`/`except` is explicit: the only statements that can raise are
`integer, decimal = s.split('.')` (two or more dots: the final match arm)
and `float(s)` in the two branches that parse (`parseDec _ = none`);
each failure returns the original value. -/
def formatCoordCore (s : List Char) : List Char :=
  if '.' ∈ s then
    match splitDot s with
    | [integer, decimal] =>
      if 6 < decimal.length then
        match parseDec s with
        | some x => formatFixed6 ⟨roundAt6 x, 6⟩
        | none => s
      else if decimal.length < 6 then
        integer ++ '.' :: (decimal ++ List.replicate (5 - decimal.length) '0' ++ ['1'])
      else
        match parseDec s with
        | some x => formatFixed6 x
        | none => s
    | _ => s
  else
    s ++ '.' :: ['0', '0', '0', '0', '0', '1']

/-- `format_coord` on strings. -/
def format_coord (s : String) : String := ⟨formatCoordCore s.data⟩

/-- Whether a string is accepted by the modelled `float` parser. -/
def isNumeral (l : List Char) : Bool := (parseDec l).isSome

/-- Length of the fractional digit block of a one-dot numeral text
(0 when there is no single-dot shape after the sign). -/
def fracLen (l : List Char) : Nat :=
  match splitDot (stripSign l).2 with
  | [_, d] => d.length
  | _ => 0

/-- Whether a string parses as a decimal numeral whose fractional part has
exactly six digits. -/
def isNumeral6 (l : List Char) : Bool := (parseDec l).isSome && fracLen l == 6

/-- Whether a text has a single-dot shape with exactly six fractional
digits. -/
def has6Frac (l : List Char) : Bool :=
  match splitDot l with
  | [_, d] => d.length == 6
  | _ => false

/-- Whether a text round-trips exactly through the modelled floating-point
representation: it parses, and re-rendering it with six fixed decimals
reproduces the text verbatim. -/
def roundTrips6 (l : List Char) : Bool :=
  match parseDec l with
  | some q => formatFixed6 q == l
  | none => false

/-- Geometry values as returned by the WKT collaborator (shapely): the four
variants `process_wkt` transforms, plus the variants it passes through
(line strings, geometry collections).  A polygon is an exterior ring plus
a list of interior rings; rings and point sets are lists of coordinate
pairs. -/
inductive Geometry where
  | point : Dec → Dec → Geometry
  | multiPoint : List (Dec × Dec) → Geometry
  | polygon : List (Dec × Dec) → List (List (Dec × Dec)) → Geometry
  | multiPolygon : List (List (Dec × Dec) × List (List (Dec × Dec))) → Geometry
  | lineString : List (Dec × Dec) → Geometry
  | geometryCollection : List Geometry → Geometry

/-- Whether the `isinstance` dispatch of `process_wkt` leaves the variant
untouched (any variant other than Point, Polygon, MultiPoint,
MultiPolygon). -/
def unsupportedGeom : Geometry → Bool
  | .lineString _ => true
  | .geometryCollection _ => true
  | _ => false

/-- The geometry collaborator (shapely), abstracted: `loads` models
`shapely.wkt.loads` (`none` models a parse exception), `toWkt` models the
`.wkt` serialisation, and `render` models Python's `str()` on a coordinate
float. -/
structure GeoLib where
  loads : String → Option Geometry
  toWkt : Geometry → String
  render : Dec → String

/-- `float(format_coord(c))` on one coordinate (`GeoRound.py` lines 68 and
76-77): take the float's string form, format it, parse the result back;
`none` models the `ValueError` raised by `float`. -/
def transformCoord (L : GeoLib) (c : Dec) : Option Dec :=
  parseDec (formatCoordCore (L.render c).data)

/-- Option-valued map: a Python list comprehension, aborting at the first
element that raises. -/
def mapOpt {α β : Type} (f : α → Option β) : List α → Option (List β)
  | [] => some []
  | a :: l =>
    match f a with
    | none => none
    | some b =>
      match mapOpt f l with
      | none => none
      | some bs => some (b :: bs)

/-- `process_coords` (`GeoRound.py` lines 67-68). -/
def process_coords (L : GeoLib) (cs : List (Dec × Dec)) :
    Option (List (Dec × Dec)) :=
  mapOpt (fun p =>
    match transformCoord L p.1 with
    | none => none
    | some a =>
      match transformCoord L p.2 with
      | none => none
      | some b => some (a, b)) cs

/-- `process_polygon` (`GeoRound.py` lines 70-73). -/
def process_polygon (L : GeoLib) (ext : List (Dec × Dec))
    (ints : List (List (Dec × Dec))) :
    Option (List (Dec × Dec) × List (List (Dec × Dec))) :=
  match process_coords L ext with
  | none => none
  | some e =>
    match mapOpt (process_coords L) ints with
    | none => none
    | some i => some (e, i)

/-- `process_point` (`GeoRound.py` lines 75-78). -/
def process_point (L : GeoLib) (x y : Dec) : Option (Dec × Dec) :=
  match transformCoord L x with
  | none => none
  | some a =>
    match transformCoord L y with
    | none => none
    | some b => some (a, b)

/-- `process_wkt` (`GeoRound.py` lines 80-94): parse, dispatch on the
variant, rebuild and serialise; a parse failure or any raise from the
coordinate conversion falls into the bare `except` and returns the input
text unchanged, so the function is total. -/
def process_wkt (L : GeoLib) (s : String) : String :=
  match L.loads s with
  | none => s
  | some g =>
    match g with
    | .polygon e i =>
      match process_polygon L e i with
      | some (e2, i2) => L.toWkt (.polygon e2 i2)
      | none => s
    | .multiPolygon ps =>
      match mapOpt (fun p => process_polygon L p.1 p.2) ps with
      | some qs => L.toWkt (.multiPolygon qs)
      | none => s
    | .point x y =>
      match process_point L x y with
      | some (a, b) => L.toWkt (.point a b)
      | none => s
    | .multiPoint ps =>
      match mapOpt (fun p => process_point L p.1 p.2) ps with
      | some qs => L.toWkt (.multiPoint qs)
      | none => s
    | _ => s

/-- The per-vertex transform applied by `process_coords`, as a total
function (defined where the transform succeeds). -/
def trPair (L : GeoLib) (p : Dec × Dec) : Dec × Dec :=
  ((transformCoord L p.1).getD ⟨0, 0⟩, (transformCoord L p.2).getD ⟨0, 0⟩)

/-- `lat_lon_cols` (`GeoRound.py` line 162): the column names the lat/lon
formatting pass iterates over (`for col in lat_lon_cols: if col in
Data.columns: ... format_coord ...`). -/
def lat_lon_cols : List String :=
  ["plot_longitude", "plot_latitude", "longitute", "latitute", "log", "lat"]

/-- The longitude/latitude column names the application's own on-page
description (`GeoRound.py` line 26) documents as recognised. -/
def documentedLatLonCols : List String :=
  ["long", "lat", "longitude", "latitude", "plot_longitude", "plot_latitude"]

/-- A collaborator for which no text parses. -/
def geoLibNone : GeoLib := ⟨fun _ => none, fun _ => "", fun _ => ""⟩

/-- A collaborator for which every text parses as a line string. -/
def geoLibLine : GeoLib := ⟨fun _ => some (.lineString []), fun _ => "", fun _ => ""⟩

/-- Renderer used by the concrete witness collaborator: a coordinate is
rendered as its own six-decimal fixed form. -/
def renderFix (c : Dec) : String := ⟨formatFixed6 c⟩

/-- A closed triangle ring (0.3 0.1, 0.5 0.1, 0.3 0.1). -/
def triRing : List (Dec × Dec) :=
  [(⟨3, 1⟩, ⟨1, 1⟩), (⟨5, 1⟩, ⟨1, 1⟩), (⟨3, 1⟩, ⟨1, 1⟩)]

/-- A collaborator that parses every text as the `triRing` polygon. -/
def geoLibTri : GeoLib :=
  ⟨fun _ => some (.polygon triRing []), fun _ => "OUT", renderFix⟩

/-- Renderer modelling Python's `str()` on the two concrete floats of the
scientific-notation counterexample: `str(0.0000001)` is `'1e-07'` and
`str(0.0)` is `'0.0'`. -/
def renderSci (c : Dec) : String := if c = ⟨1, 7⟩ then "1e-07" else "0.0"

/-- A closed square-ish ring containing the coordinate `0.0000001`. -/
def sciRing : List (Dec × Dec) :=
  [(⟨1, 7⟩, ⟨0, 1⟩), (⟨0, 1⟩, ⟨0, 1⟩), (⟨0, 1⟩, ⟨1, 7⟩), (⟨1, 7⟩, ⟨0, 1⟩)]

/-- The WKT text of `sciRing`. -/
def sciWkt : String :=
  "POLYGON ((0.0000001 0, 0 0, 0 0.0000001, 0.0000001 0))"

/-- A collaborator that parses `sciWkt` as the `sciRing` polygon and whose
coordinate rendering follows Python's `str()` (scientific notation for the
tiny value). -/
def geoLibSci : GeoLib :=
  ⟨fun _ => some (.polygon sciRing []), fun _ => "W", renderSci⟩

theorem splitDot_ne_nil (l : List Char) : splitDot l ≠ [] := by
  induction l with
  | nil => simp [splitDot]
  | cons c cs ih =>
    by_cases h : c = '.'
    · simp [splitDot, h]
    · simp only [splitDot, if_neg h]
      cases hs : splitDot cs with
      | nil => simp
      | cons p ps => simp

theorem splitDot_length (l : List Char) :
    (splitDot l).length = l.count '.' + 1 := by
  induction l with
  | nil => simp [splitDot]
  | cons c cs ih =>
    by_cases h : c = '.'
    · subst h
      simp [splitDot, ih, List.count_cons]
    · simp only [splitDot, if_neg h]
      cases hs : splitDot cs with
      | nil => exact absurd hs (splitDot_ne_nil cs)
      | cons p ps =>
        rw [hs] at ih
        simp only [List.length_cons] at ih ⊢
        rw [List.count_cons]
        simp [h, ih]

theorem splitDot_no_dot {l : List Char} (h : '.' ∉ l) : splitDot l = [l] := by
  induction l with
  | nil => rfl
  | cons c cs ih =>
    have hc : c ≠ '.' := fun hc => h (hc ▸ List.mem_cons_self c cs)
    have hcs : '.' ∉ cs := fun hm => h (List.mem_cons_of_mem c hm)
    simp only [splitDot, if_neg hc, ih hcs]

theorem splitDot_append_dot {i f : List Char} (hi : '.' ∉ i) (hf : '.' ∉ f) :
    splitDot (i ++ '.' :: f) = [i, f] := by
  induction i with
  | nil => simp [splitDot, splitDot_no_dot hf]
  | cons a as ih =>
    have ha : a ≠ '.' := fun hc => hi (hc ▸ List.mem_cons_self a as)
    have has : '.' ∉ as := fun hm => hi (List.mem_cons_of_mem a hm)
    simp only [List.cons_append, splitDot, if_neg ha, List.append_eq, ih has]

theorem formatCoordCore_multi_dot {s : List Char} (h : 2 ≤ s.count '.') :
    formatCoordCore s = s := by
  have hmem : '.' ∈ s := by
    by_contra hm
    have h0 : s.count '.' = 0 := List.count_eq_zero_of_not_mem hm
    omega
  have hlen : 3 ≤ (splitDot s).length := by
    rw [splitDot_length]; omega
  rcases hsp : splitDot s with _ | ⟨a, _ | ⟨b, _ | ⟨c, t⟩⟩⟩
  · rw [hsp] at hlen; simp at hlen
  · rw [hsp] at hlen; simp at hlen
  · rw [hsp] at hlen; simp at hlen
  · simp only [formatCoordCore, if_pos hmem, hsp]

theorem formatCoordCore_pad {i f : List Char} (hi : '.' ∉ i) (hf : '.' ∉ f)
    (hlen : f.length < 6) :
    formatCoordCore (i ++ '.' :: f) =
      i ++ '.' :: (f ++ List.replicate (5 - f.length) '0' ++ ['1']) := by
  have hmem : '.' ∈ i ++ '.' :: f := by simp
  simp only [formatCoordCore, if_pos hmem, splitDot_append_dot hi hf]
  rw [if_neg (by omega), if_pos hlen]

theorem formatCoordCore_no_dot {s : List Char} (h : '.' ∉ s) :
    formatCoordCore s = s ++ '.' :: ['0', '0', '0', '0', '0', '1'] := by
  simp only [formatCoordCore, if_neg h]

/-- C1: for an input of the form `integer "." fraction` with fractional
length `f < 6`, `format_coord` keeps the integer part, keeps the original
fractional digits, and appends `5 - f` zeros and one `'1'` digit, a pure
concatenation with no rounding; the resulting fractional part has exactly
6 digits. -/
theorem format_coord_pad_branch (i f : List Char) (hi : '.' ∉ i) (hf : '.' ∉ f)
    (hlen : f.length < 6) :
    format_coord ⟨i ++ '.' :: f⟩ =
        ⟨i ++ '.' :: (f ++ List.replicate (5 - f.length) '0' ++ ['1'])⟩ ∧
      (f ++ List.replicate (5 - f.length) '0' ++ ['1']).length = 6 := by
  refine ⟨?_, ?_⟩
  · unfold format_coord
    exact congrArg String.mk (formatCoordCore_pad hi hf hlen)
  · simp only [List.length_append, List.length_replicate, List.length_cons,
      List.length_nil]
    omega

/-- C1 witness: the padding rule at the concrete input `"12.3"`. -/
theorem format_coord_pad_branch_witness :
    format_coord ⟨['1', '2'] ++ '.' :: ['3']⟩ =
        ⟨['1', '2'] ++ '.' ::
          (['3'] ++ List.replicate (5 - ['3'].length) '0' ++ ['1'])⟩ ∧
      (['3'] ++ List.replicate (5 - ['3'].length) '0' ++ ['1']).length = 6 :=
  format_coord_pad_branch ['1', '2'] ['3'] (by decide) (by decide) (by decide)

/-- C2 counterexample: `format_coord "12.3"` is not `"12.30001"`: the claim
(and the spec's worked example) drops one of the padding zeros; the code
appends `5 - 1 = 4` zeros and then `'1'`, six fractional digits in all. -/
theorem format_coord_12_3_claim_false : format_coord "12.3" ≠ "12.30001" := by
  decide

/-- C2 amended: `format_coord "12.3"` returns `"12.300001"`. -/
theorem format_coord_12_3_eq : format_coord "12.3" = "12.300001" := by decide

/-- C10: an input whose string form contains two or more `'.'` characters is
returned unchanged: the two-way unpacking of `s.split('.')` raises, the
handler returns the original value, and `format_coord` does not raise. -/
theorem format_coord_multi_dot_unchanged (s : String)
    (h : 2 ≤ s.data.count '.') : format_coord s = s := by
  unfold format_coord
  rw [formatCoordCore_multi_dot h]

/-- C10 witness: `format_coord "1.2.3"` returns `"1.2.3"`. -/
theorem format_coord_multi_dot_unchanged_witness :
    format_coord "1.2.3" = "1.2.3" :=
  format_coord_multi_dot_unchanged "1.2.3" (by decide)

theorem parseDec_eq_single {l i : List Char}
    (hsp : splitDot (stripSign l).2 = [i]) :
    parseDec l =
      if !i.isEmpty && i.all isDigitChar then
        some ⟨cond (stripSign l).1 (-(digitsVal i : ℤ)) (digitsVal i), 0⟩
      else none := by
  unfold parseDec
  rw [hsp]

theorem parseDec_eq_pair {l i d : List Char}
    (hsp : splitDot (stripSign l).2 = [i, d]) :
    parseDec l =
      if !(i ++ d).isEmpty && (i ++ d).all isDigitChar then
        some ⟨cond (stripSign l).1 (-1 : ℤ) 1 *
          ((digitsVal i : ℤ) * 10 ^ d.length + (digitsVal d : ℤ)), d.length⟩
      else none := by
  unfold parseDec
  rw [hsp]

theorem fracLen_eq_pair {l i d : List Char}
    (hsp : splitDot (stripSign l).2 = [i, d]) : fracLen l = d.length := by
  unfold fracLen
  rw [hsp]

theorem mem_stripSign_snd {c : Char} {l : List Char}
    (h : c ∈ (stripSign l).2) : c ∈ l := by
  cases l with
  | nil => simp [stripSign] at h
  | cons a r =>
    by_cases h1 : a = '-'
    · simp only [stripSign, if_pos h1] at h
      exact List.mem_cons_of_mem a h
    · by_cases h2 : a = '+'
      · simp only [stripSign, if_neg h1, if_pos h2] at h
        exact List.mem_cons_of_mem a h
      · simp only [stripSign, if_neg h1, if_neg h2] at h
        exact h

theorem stripSign_append_dot (l d : List Char) :
    stripSign (l ++ '.' :: d) = ((stripSign l).1, (stripSign l).2 ++ '.' :: d) := by
  cases l with
  | nil => rfl
  | cons c r =>
    simp only [List.cons_append, stripSign]
    by_cases h1 : c = '-'
    · simp [h1]
    · by_cases h2 : c = '+'
      · simp [h1, h2]
      · simp [h1, h2]

theorem stripSign_decomp (l : List Char) :
    ∃ sgn, (sgn = [] ∨ sgn = ['-'] ∨ sgn = ['+']) ∧
      l = sgn ++ (stripSign l).2 := by
  cases l with
  | nil => exact ⟨[], Or.inl rfl, rfl⟩
  | cons c r =>
    by_cases h1 : c = '-'
    · exact ⟨['-'], Or.inr (Or.inl rfl), by simp [stripSign, h1]⟩
    · by_cases h2 : c = '+'
      · exact ⟨['+'], Or.inr (Or.inr rfl), by simp [stripSign, h1, h2]⟩
      · exact ⟨[], Or.inl rfl, by simp [stripSign, h1, h2]⟩

theorem dot_not_mem_of_all_digits {l : List Char}
    (h : l.all isDigitChar = true) : '.' ∉ l := fun hm =>
  absurd (List.all_eq_true.mp h '.' hm) (by decide)

theorem stripSign_snd_digits {sgn i : List Char}
    (hsgn : sgn = [] ∨ sgn = ['-'] ∨ sgn = ['+'])
    (hi : i.all isDigitChar = true) : (stripSign (sgn ++ i)).2 = i := by
  rcases hsgn with rfl | rfl | rfl
  · cases i with
    | nil => rfl
    | cons c r =>
      have hc : isDigitChar c = true :=
        List.all_eq_true.mp hi c (List.mem_cons_self c r)
      have h1 : c ≠ '-' := fun hh => absurd (hh ▸ hc) (by decide)
      have h2 : c ≠ '+' := fun hh => absurd (hh ▸ hc) (by decide)
      simp [stripSign, h1, h2]
  · simp [stripSign]
  · simp [stripSign]

theorem isEmpty_false_of_ne {α : Type} {l : List α} (h : l ≠ []) :
    l.isEmpty = false := by
  cases l with
  | nil => exact absurd rfl h
  | cons a r => rfl

/-- Acceptance of a well-shaped one-dot string by the parser, together with
its six-digit fractional length. -/
theorem isNumeral6_of_shape (l d : List Char) (hl : '.' ∉ l)
    (hd : d.all isDigitChar = true) (hd6 : d.length = 6)
    (hli : (stripSign l).2.all isDigitChar = true) :
    isNumeral6 (l ++ '.' :: d) = true := by
  have hdd : '.' ∉ d := dot_not_mem_of_all_digits hd
  have hsl : '.' ∉ (stripSign l).2 := fun hm => hl (mem_stripSign_snd hm)
  have hsp : splitDot (stripSign (l ++ '.' :: d)).2 = [(stripSign l).2, d] := by
    rw [stripSign_append_dot]
    exact splitDot_append_dot hsl hdd
  have hdne : d ≠ [] := by
    intro h0
    rw [h0] at hd6
    simp at hd6
  have hcond : (!((stripSign l).2 ++ d).isEmpty &&
      ((stripSign l).2 ++ d).all isDigitChar) = true := by
    have hne : (stripSign l).2 ++ d ≠ [] := by
      intro h0
      exact hdne (List.append_eq_nil.mp h0).2
    rw [isEmpty_false_of_ne hne, List.all_append, hli, hd]
    rfl
  unfold isNumeral6
  rw [parseDec_eq_pair hsp, if_pos hcond, fracLen_eq_pair hsp, hd6]
  rfl

theorem isDigitChar_digitChar (n : Nat) : isDigitChar (digitChar n) = true := by
  unfold digitChar
  repeat' split
  all_goals decide

theorem natDigitsF_ne_nil (fuel n : Nat) (h : n < fuel) :
    natDigitsF fuel n ≠ [] := by
  cases fuel with
  | zero => omega
  | succ fuel =>
    unfold natDigitsF
    split
    · simp
    · simp

theorem natDigits_ne_nil (n : Nat) : natDigits n ≠ [] :=
  natDigitsF_ne_nil (n + 1) n (by omega)

theorem natDigitsF_all_digits (fuel n : Nat) (h : n < fuel) :
    (natDigitsF fuel n).all isDigitChar = true := by
  induction fuel generalizing n with
  | zero => omega
  | succ fuel ih =>
    unfold natDigitsF
    split
    · simp [isDigitChar_digitChar]
    · rename_i h10
      rw [List.all_append, ih (n / 10) (by omega)]
      simp [isDigitChar_digitChar]

theorem natDigits_all_digits (n : Nat) : (natDigits n).all isDigitChar = true :=
  natDigitsF_all_digits (n + 1) n (by omega)

theorem natDigitsF_length_le (fuel k n : Nat) (hf : n < fuel)
    (h : n < 10 ^ (k + 1)) : (natDigitsF fuel n).length ≤ k + 1 := by
  induction fuel generalizing k n with
  | zero => omega
  | succ fuel ih =>
    unfold natDigitsF
    split
    · simp
    · rename_i h10
      cases k with
      | zero =>
        rw [pow_one] at h
        omega
      | succ k =>
        rw [List.length_append]
        have hdiv : n / 10 < 10 ^ (k + 1) := by
          rw [Nat.div_lt_iff_lt_mul (by norm_num)]
          rw [pow_succ] at h
          exact h
        have := ih k (n / 10) (by omega) hdiv
        simp only [List.length_cons, List.length_nil]
        omega

theorem natDigits_length_le (k n : Nat) (h : n < 10 ^ (k + 1)) :
    (natDigits n).length ≤ k + 1 :=
  natDigitsF_length_le (n + 1) k n (by omega) h

theorem eq_of_splitDot_single {l x : List Char} (h : splitDot l = [x]) :
    l = x := by
  induction l generalizing x with
  | nil =>
    simp only [splitDot] at h
    exact congrArg (fun t => t.headI) h
  | cons c cs ih =>
    by_cases hc : c = '.'
    · subst hc
      simp only [splitDot, if_pos rfl] at h
      have h2 : splitDot cs = [] := congrArg List.tail h
      exact absurd h2 (splitDot_ne_nil cs)
    · simp only [splitDot, if_neg hc] at h
      rcases hs : splitDot cs with _ | ⟨p, ps⟩
      · exact absurd hs (splitDot_ne_nil cs)
      · rw [hs] at h
        have h1 : x = c :: p := (congrArg (fun t => t.headI) h).symm
        have h2 : ps = [] := congrArg List.tail h
        rw [h2] at hs
        rw [h1, ih hs]

theorem eq_of_splitDot_pair {l i d : List Char} (h : splitDot l = [i, d]) :
    l = i ++ '.' :: d := by
  induction l generalizing i with
  | nil =>
    simp only [splitDot] at h
    have h2 := congrArg List.length h
    simp at h2
  | cons c cs ih =>
    by_cases hc : c = '.'
    · subst hc
      simp only [splitDot, if_pos rfl] at h
      have h1 : i = [] := (congrArg (fun t => t.headI) h).symm
      have h2 : splitDot cs = [d] := congrArg List.tail h
      rw [h1, eq_of_splitDot_single h2]
      rfl
    · simp only [splitDot, if_neg hc] at h
      rcases hs : splitDot cs with _ | ⟨p, ps⟩
      · exact absurd hs (splitDot_ne_nil cs)
      · rw [hs] at h
        have h1 : i = c :: p := (congrArg (fun t => t.headI) h).symm
        have h2 : ps = [d] := congrArg List.tail h
        rw [h2] at hs
        rw [h1, List.cons_append, ih hs]

/-- Shape of the fixed-six-digit renderer: its output always parses as a
decimal numeral with exactly six fractional digits. -/
theorem isNumeral6_formatFixed6 (x : Dec) : isNumeral6 (formatFixed6 x) = true := by
  unfold formatFixed6
  generalize roundAt6 x = n
  have hA : (natDigits (n.natAbs / 1000000)).all isDigitChar = true :=
    natDigits_all_digits _
  have hB : (natDigits (n.natAbs % 1000000)).all isDigitChar = true :=
    natDigits_all_digits _
  have hBlen : (natDigits (n.natAbs % 1000000)).length ≤ 6 := by
    have hm : n.natAbs % 1000000 < 10 ^ (5 + 1) := by
      have := Nat.mod_lt n.natAbs (show 0 < 1000000 by norm_num)
      norm_num
      omega
    exact natDigits_length_le 5 _ hm
  have hdall : (padZeros 6 (natDigits (n.natAbs % 1000000))).all isDigitChar = true := by
    unfold padZeros
    rw [List.all_append, hB]
    simp only [List.all_replicate, Bool.and_true]
    have h0 : isDigitChar '0' = true := by decide
    cases h6 : 6 - (natDigits (n.natAbs % 1000000)).length <;> simp [h0]
  have hdlen : (padZeros 6 (natDigits (n.natAbs % 1000000))).length = 6 := by
    unfold padZeros
    rw [List.length_append, List.length_replicate]
    omega
  apply isNumeral6_of_shape
  · intro hm
    rcases List.mem_append.mp hm with hm | hm
    · split at hm <;> simp at hm
    · exact dot_not_mem_of_all_digits hA hm
  · exact hdall
  · exact hdlen
  · have hsgn : (if n < 0 then ['-'] else ([] : List Char)) = [] ∨
        (if n < 0 then ['-'] else ([] : List Char)) = ['-'] ∨
        (if n < 0 then ['-'] else ([] : List Char)) = ['+'] := by
      split
      · exact Or.inr (Or.inl rfl)
      · exact Or.inl rfl
    rw [stripSign_snd_digits hsgn hA]
    exact hA

/-- Acceptance facts extracted from a dot-free numeral. -/
theorem isNumeral_no_dot_digits {l : List Char} (hl : '.' ∉ l)
    (h : isNumeral l = true) :
    (stripSign l).2.isEmpty = false ∧ (stripSign l).2.all isDigitChar = true := by
  have hsl : '.' ∉ (stripSign l).2 := fun hm => hl (mem_stripSign_snd hm)
  have hsp := splitDot_no_dot hsl
  unfold isNumeral at h
  rw [parseDec_eq_single hsp] at h
  by_cases hc : (!(stripSign l).2.isEmpty && (stripSign l).2.all isDigitChar) = true
  · have := Bool.and_eq_true_iff.mp hc
    exact ⟨Eq.mp (Bool.not_eq_true' _) this.1, this.2⟩
  · rw [if_neg hc] at h
    simp at h

/-- C7: an input whose string form contains no `'.'` separator gets the
literal text `".000001"` appended, so an integer `N` becomes `N.000001`
(in particular `"12"` becomes `"12.000001"` and a longitude value `"3"`
becomes `"3.000001"`); when the input is a decimal numeral, the result
parses as a floating-point numeral with exactly six fractional digits. -/
theorem format_coord_no_dot_append (s : String) (h : '.' ∉ s.data) :
    format_coord s = s ++ ".000001" ∧
      (isNumeral s.data = true → isNumeral6 (format_coord s).data = true) := by
  obtain ⟨d⟩ := s
  refine ⟨?_, ?_⟩
  · show String.mk (formatCoordCore d) = _
    rw [formatCoordCore_no_dot h]
    rfl
  · intro hnum
    show isNumeral6 (formatCoordCore d) = true
    rw [formatCoordCore_no_dot h]
    obtain ⟨hne, hall⟩ := isNumeral_no_dot_digits h hnum
    exact isNumeral6_of_shape d _ h (by decide) (by decide) hall

/-- C7 witness: the integer text `"3"`, which is a numeral without a dot. -/
theorem format_coord_no_dot_append_witness :
    (format_coord "3" = "3" ++ ".000001" ∧
      (isNumeral "3".data = true → isNumeral6 (format_coord "3").data = true)) ∧
      isNumeral "3".data = true :=
  ⟨format_coord_no_dot_append "3" (by decide), by decide⟩

/-- C3 counterexample: not every input yields a parseable six-fractional-
digit output.  The value `1e-07` (Python's string form of the float
`0.0000001`) contains no `'.'`, so `format_coord` appends `".000001"` and
returns `"1e-07.000001"`, which does not parse as a floating-point
number. -/
theorem format_coord_six_digit_claim_false :
    format_coord "1e-07" = "1e-07.000001" ∧
      isNumeral6 (format_coord "1e-07").data = false := by
  constructor
  · decide
  · decide

/-- C3 amended: for every input accepted by the decimal-numeral parser
(optional sign, digits, at most one dot), the output of `format_coord`
parses as a floating-point numeral with exactly six fractional digits. -/
theorem format_coord_numeral_six_digits (s : String)
    (h : isNumeral s.data = true) :
    isNumeral6 (format_coord s).data = true := by
  obtain ⟨d⟩ := s
  show isNumeral6 (formatCoordCore d) = true
  replace h : isNumeral d = true := h
  rcases hsp : splitDot (stripSign d).2 with _ | ⟨i, _ | ⟨f, _ | ⟨x, t⟩⟩⟩
  · exact absurd hsp (splitDot_ne_nil _)
  · -- a single block after the sign: the input has no dot at all
    have hcount : (stripSign d).2.count '.' = 0 := by
      have hl := splitDot_length (stripSign d).2
      rw [hsp] at hl
      simp at hl
      omega
    have hsl : '.' ∉ (stripSign d).2 := List.count_eq_zero.mp hcount
    have hdl : '.' ∉ d := by
      intro hm
      obtain ⟨sgn, hsgn, hde⟩ := stripSign_decomp d
      rw [hde] at hm
      rcases List.mem_append.mp hm with hm | hm
      · rcases hsgn with rfl | rfl | rfl <;> simp at hm
      · exact hsl hm
    rw [formatCoordCore_no_dot hdl]
    obtain ⟨hne, hall⟩ := isNumeral_no_dot_digits hdl h
    exact isNumeral6_of_shape d _ hdl (by decide) (by decide) hall
  · -- exactly one dot after the sign
    have hd_str : (stripSign d).2 = i ++ '.' :: f := eq_of_splitDot_pair hsp
    obtain ⟨sgn, hsgn, hde⟩ := stripSign_decomp d
    have hp := parseDec_eq_pair hsp
    unfold isNumeral at h
    rw [hp] at h
    by_cases hc : (!(i ++ f).isEmpty && (i ++ f).all isDigitChar) = true
    case neg =>
      rw [if_neg hc] at h
      simp at h
    have hif : (i ++ f).all isDigitChar = true := (Bool.and_eq_true_iff.mp hc).2
    rw [List.all_append] at hif
    have hi_all : i.all isDigitChar = true := (Bool.and_eq_true_iff.mp hif).1
    have hf_all : f.all isDigitChar = true := (Bool.and_eq_true_iff.mp hif).2
    have hi_nd : '.' ∉ i := dot_not_mem_of_all_digits hi_all
    have hf_nd : '.' ∉ f := dot_not_mem_of_all_digits hf_all
    have hsgn_nd : '.' ∉ sgn := by
      rcases hsgn with rfl | rfl | rfl <;> simp
    have hsgni_nd : '.' ∉ sgn ++ i := by
      intro hm
      rcases List.mem_append.mp hm with hm | hm
      exacts [hsgn_nd hm, hi_nd hm]
    have hded : d = (sgn ++ i) ++ '.' :: f := by
      rw [List.append_assoc, ← hd_str]
      exact hde
    by_cases hlen : f.length < 6
    · rw [hded, formatCoordCore_pad hsgni_nd hf_nd hlen]
      apply isNumeral6_of_shape
      · exact hsgni_nd
      · rw [List.all_append, List.all_append, hf_all]
        have h0 : isDigitChar '0' = true := by decide
        have h1 : isDigitChar '1' = true := by decide
        cases h5 : 5 - f.length <;> simp [h0, h1]
      · rw [List.length_append, List.length_append, List.length_replicate]
        simp only [List.length_cons, List.length_nil]
        omega
      · rw [stripSign_snd_digits hsgn hi_all]
        exact hi_all
    · have hmem : '.' ∈ d := by
        rw [hded]; simp
      have hsp_full : splitDot d = [sgn ++ i, f] := by
        rw [hded]
        exact splitDot_append_dot hsgni_nd hf_nd
      have hpd : parseDec d = some ⟨cond (stripSign d).1 (-1 : ℤ) 1 *
          ((digitsVal i : ℤ) * 10 ^ f.length + (digitsVal f : ℤ)), f.length⟩ := by
        rw [hp, if_pos hc]
      simp only [formatCoordCore, if_pos hmem, hsp_full]
      by_cases hl6 : 6 < f.length
      · rw [if_pos hl6, hpd]
        exact isNumeral6_formatFixed6 _
      · rw [if_neg hl6, if_neg hlen, hpd]
        exact isNumeral6_formatFixed6 _
  · -- three or more blocks: the parser rejects, contradicting the premise
    have hp : parseDec d = none := by
      unfold parseDec
      rw [hsp]
    unfold isNumeral at h
    rw [hp] at h
    simp at h

/-- C3 witness: the numeral `"12.1234567"` (seven fractional digits,
exercising the rounding branch). -/
theorem format_coord_numeral_six_digits_witness :
    isNumeral "12.1234567".data = true ∧
      isNumeral6 (format_coord "12.1234567").data = true :=
  ⟨by decide, format_coord_numeral_six_digits "12.1234567" (by decide)⟩

/-- C8: when the output of `format_coord` has exactly six fractional digits
and round-trips exactly through the (modelled) float representation,
`format_coord` is stable under repetition. -/
theorem format_coord_stable (x : String)
    (h6 : has6Frac (format_coord x).data = true)
    (hrt : roundTrips6 (format_coord x).data = true) :
    format_coord (format_coord x) = format_coord x := by
  suffices hs : formatCoordCore (format_coord x).data = (format_coord x).data by
    show String.mk (formatCoordCore (format_coord x).data) = format_coord x
    rw [hs]
  generalize (format_coord x).data = y at h6 hrt
  unfold has6Frac at h6
  rcases hsp : splitDot y with _ | ⟨i, _ | ⟨dd, _ | ⟨z, t⟩⟩⟩
  · exact absurd hsp (splitDot_ne_nil _)
  · rw [hsp] at h6
    simp at h6
  · rw [hsp] at h6
    simp only [Nat.beq_eq_true_eq] at h6
    have hmem : '.' ∈ y := by
      by_contra hm
      rw [splitDot_no_dot hm] at hsp
      have := congrArg List.length hsp
      simp at this
    simp only [formatCoordCore, if_pos hmem, hsp]
    rw [if_neg (by omega), if_neg (by omega)]
    have hex : ∃ q, parseDec y = some q ∧ formatFixed6 q = y := by
      revert hrt
      unfold roundTrips6
      cases hq : parseDec y with
      | none =>
        intro hrt
        simp at hrt
      | some q =>
        intro hrt
        simp only [beq_iff_eq] at hrt
        exact ⟨q, rfl, hrt⟩
    obtain ⟨q, hq, hfq⟩ := hex
    rw [hq]
    exact hfq
  · rw [hsp] at h6
    simp at h6

/-- C8 witness: `"12.123456"`, whose formatted output is already in
canonical six-digit form and round-trips exactly. -/
theorem format_coord_stable_witness :
    has6Frac (format_coord "12.123456").data = true ∧
      roundTrips6 (format_coord "12.123456").data = true ∧
      format_coord (format_coord "12.123456") = format_coord "12.123456" :=
  ⟨by decide, by decide, format_coord_stable "12.123456" (by decide) (by decide)⟩

theorem mapOpt_eq_map {α β : Type} (f : α → Option β) (g : α → β)
    (l : List α) (h : ∀ a ∈ l, f a = some (g a)) :
    mapOpt f l = some (l.map g) := by
  induction l with
  | nil => rfl
  | cons a t ih =>
    have ha := h a (List.mem_cons_self a t)
    have ht := ih fun b hb => h b (List.mem_cons_of_mem a hb)
    simp [mapOpt, ha, ht]

theorem mapOpt_some_eq_map {α β : Type} (f : α → Option β) (b0 : β)
    (l : List α) (l2 : List β) (h : mapOpt f l = some l2) :
    l2 = l.map fun a => (f a).getD b0 := by
  induction l generalizing l2 with
  | nil =>
    simp only [mapOpt] at h
    simp only [List.map_nil]
    exact (Option.some.inj h).symm
  | cons a t ih =>
    simp only [mapOpt] at h
    split at h
    · exact absurd h (by simp)
    · rename_i b hfa
      split at h
      · exact absurd h (by simp)
      · rename_i bs hmt
        have hl := Option.some.inj h
        rw [← hl, List.map_cons, hfa, ih bs hmt]
        simp

/-- C4: of the names the claim lists, `plot_longitude`, `plot_latitude`,
`longitute`, `latitute` and `lat` are in the processing list, but `long`,
`longitude` and `latitude` are not: the list contains the typo `log`
instead of `long` and omits `longitude`/`latitude`, although the app's own
description documents all three — the code contradicts its own
documentation. -/
theorem lat_lon_cols_membership :
    ("plot_longitude" ∈ lat_lon_cols ∧ "plot_latitude" ∈ lat_lon_cols ∧
      "longitute" ∈ lat_lon_cols ∧ "latitute" ∈ lat_lon_cols ∧
      "lat" ∈ lat_lon_cols) ∧
    ("long" ∉ lat_lon_cols ∧ "longitude" ∉ lat_lon_cols ∧
      "latitude" ∉ lat_lon_cols) ∧
    ("log" ∈ lat_lon_cols ∧ "log" ∉ documentedLatLonCols ∧
      "long" ∈ documentedLatLonCols ∧ "longitude" ∈ documentedLatLonCols ∧
      "latitude" ∈ documentedLatLonCols) := by
  decide

/-- C5: `process_wkt` is a total function, and it returns its input
unchanged both when the text does not parse as a geometry and when the
parsed geometry is an unsupported variant (a line string or a geometry
collection). -/
theorem process_wkt_passthrough (L : GeoLib) (s : String) :
    (L.loads s = none → process_wkt L s = s) ∧
      ∀ g, L.loads s = some g → unsupportedGeom g = true →
        process_wkt L s = s := by
  constructor
  · intro h
    simp only [process_wkt, h]
  · intro g hg hu
    cases g with
    | lineString cs => simp only [process_wkt, hg]
    | geometryCollection gs => simp only [process_wkt, hg]
    | point x y => simp [unsupportedGeom] at hu
    | multiPoint ps => simp [unsupportedGeom] at hu
    | polygon e i => simp [unsupportedGeom] at hu
    | multiPolygon ps => simp [unsupportedGeom] at hu

/-- C5 witness: the malformed text `"NOT A GEOMETRY"` and a line-string
text both come back unchanged. -/
theorem process_wkt_passthrough_witness :
    process_wkt geoLibNone "NOT A GEOMETRY" = "NOT A GEOMETRY" ∧
      process_wkt geoLibLine "LINESTRING (0 0, 1 1)" =
        "LINESTRING (0 0, 1 1)" :=
  ⟨(process_wkt_passthrough geoLibNone "NOT A GEOMETRY").1 rfl,
    (process_wkt_passthrough geoLibLine "LINESTRING (0 0, 1 1)").2
      (.lineString []) rfl rfl⟩

theorem process_coords_eq_map (L : GeoLib) (cs : List (Dec × Dec))
    (h : ∀ p ∈ cs, (transformCoord L p.1).isSome ∧
      (transformCoord L p.2).isSome) :
    process_coords L cs = some (cs.map (trPair L)) := by
  apply mapOpt_eq_map
  intro p hp
  obtain ⟨h1, h2⟩ := h p hp
  obtain ⟨a, ha⟩ := Option.isSome_iff_exists.mp h1
  obtain ⟨b, hb⟩ := Option.isSome_iff_exists.mp h2
  simp only [ha, hb, trPair, Option.getD_some]

theorem process_polygon_eq (L : GeoLib) (ext : List (Dec × Dec))
    (ints : List (List (Dec × Dec)))
    (hext : ∀ p ∈ ext, (transformCoord L p.1).isSome ∧
      (transformCoord L p.2).isSome)
    (hints : ∀ r ∈ ints, ∀ p ∈ r, (transformCoord L p.1).isSome ∧
      (transformCoord L p.2).isSome) :
    process_polygon L ext ints =
      some (ext.map (trPair L), ints.map fun r => r.map (trPair L)) := by
  have he := process_coords_eq_map L ext hext
  have hi := mapOpt_eq_map (process_coords L) (fun r => r.map (trPair L)) ints
    fun r hr => process_coords_eq_map L r (hints r hr)
  simp only [process_polygon, he, hi]

/-- C6 amended: for a WKT text parsed as a Polygon, when every coordinate's
rendered text is formatted by `format_coord` into float-parseable text,
`process_wkt` returns the serialisation of a Polygon with the same ring
structure — the exterior plus the same ordered interior rings, with the
same vertex count per ring — in which every coordinate is individually
`float(format_coord(str(c)))`. -/
theorem process_wkt_polygon_transforms (L : GeoLib) (s : String)
    (ext : List (Dec × Dec)) (ints : List (List (Dec × Dec)))
    (hload : L.loads s = some (.polygon ext ints))
    (hext : ∀ p ∈ ext, (transformCoord L p.1).isSome ∧
      (transformCoord L p.2).isSome)
    (hints : ∀ r ∈ ints, ∀ p ∈ r, (transformCoord L p.1).isSome ∧
      (transformCoord L p.2).isSome) :
    process_wkt L s =
        L.toWkt (.polygon (ext.map (trPair L))
          (ints.map fun r => r.map (trPair L))) ∧
      (ext.map (trPair L)).length = ext.length ∧
      (ints.map fun r => r.map (trPair L)).length = ints.length ∧
      ∀ k : Nat, ((ints.map fun r => r.map (trPair L))[k]?).map List.length =
        (ints[k]?).map List.length := by
  have hpoly := process_polygon_eq L ext ints hext hints
  refine ⟨?_, List.length_map _ _, List.length_map _ _, ?_⟩
  · simp only [process_wkt, hload, hpoly]
  · intro k
    rw [List.getElem?_map]
    cases ints[k]? <;> simp

/-- C6 witness: the polygon transform at a concrete three-vertex ring. -/
theorem process_wkt_polygon_transforms_witness :
    process_wkt geoLibTri "PLY" =
        geoLibTri.toWkt (.polygon (triRing.map (trPair geoLibTri))
          (([] : List (List (Dec × Dec))).map fun r =>
            r.map (trPair geoLibTri))) ∧
      (triRing.map (trPair geoLibTri)).length = triRing.length ∧
      (([] : List (List (Dec × Dec))).map fun r =>
        r.map (trPair geoLibTri)).length =
        ([] : List (List (Dec × Dec))).length ∧
      ∀ k : Nat, ((([] : List (List (Dec × Dec))).map fun r =>
          r.map (trPair geoLibTri))[k]?).map List.length =
        (([] : List (List (Dec × Dec)))[k]?).map List.length :=
  process_wkt_polygon_transforms geoLibTri "PLY" triRing [] rfl
    (by decide) (by decide)

/-- C6 counterexample: a valid Polygon WKT whose coordinate `0.0000001`
renders as `'1e-07'`.  That text has no `'.'`, so `format_coord` returns
`'1e-07.000001'`, `float` raises on it, the bare `except` of `process_wkt`
fires, and the original text is returned — not the serialisation of any
transformed polygon. -/
theorem process_wkt_polygon_claim_false :
    process_wkt geoLibSci sciWkt = sciWkt ∧
      ∀ e i, geoLibSci.toWkt (.polygon e i) ≠ sciWkt := by
  constructor
  · decide
  · intro e i
    exact (by decide : ("W" : String) ≠ sciWkt)

/-- C9: `process_coords` maps every vertex through the same deterministic
function, so when it succeeds on a ring whose first coordinate pair equals
its last, the produced ring is closed as well: the duplicated closing
vertex is mapped to exactly the same formatted pair as the first vertex.
`process_polygon` applies `process_coords` to the exterior ring and to
every interior ring, so every ring it produces keeps its closure. -/
theorem process_coords_preserves_closure (L : GeoLib)
    (cs cs2 : List (Dec × Dec)) (h : process_coords L cs = some cs2)
    (hc : cs.head? = cs.getLast?) : cs2.head? = cs2.getLast? := by
  have hmap := mapOpt_some_eq_map
    (fun p : Dec × Dec =>
      match transformCoord L p.1 with
      | none => none
      | some a =>
        match transformCoord L p.2 with
        | none => none
        | some b => some (a, b))
    ((⟨0, 0⟩, ⟨0, 0⟩) : Dec × Dec) cs cs2 h
  rw [hmap, List.head?_map, List.getLast?_map, hc]

/-- C9 witness: the closed triangle `triRing` stays closed. -/
theorem process_coords_preserves_closure_witness :
    ([((⟨300000, 6⟩ : Dec), (⟨100000, 6⟩ : Dec)), (⟨500000, 6⟩, ⟨100000, 6⟩),
        (⟨300000, 6⟩, ⟨100000, 6⟩)] : List (Dec × Dec)).head? =
      ([((⟨300000, 6⟩ : Dec), (⟨100000, 6⟩ : Dec)), (⟨500000, 6⟩, ⟨100000, 6⟩),
        (⟨300000, 6⟩, ⟨100000, 6⟩)] : List (Dec × Dec)).getLast? :=
  process_coords_preserves_closure geoLibTri triRing
    [(⟨300000, 6⟩, ⟨100000, 6⟩), (⟨500000, 6⟩, ⟨100000, 6⟩),
      (⟨300000, 6⟩, ⟨100000, 6⟩)] (by decide) (by decide)
